import Mathlib

/-!
Shallow embedding of the two concurrency primitives of the repository:

* `thread/mutex.h` — `HierarchicalMutex`, a lock-order-violation detector
  built on a per-thread watermark (`this_thread_hierarchy_value_`,
  initialized to `std::numeric_limits<int>::max()`), a per-instance
  `current_level_` and a per-instance `previous_level_` saved slot.
* `thread/threadsafequeue.h` — `WaitSyncQueue`, a bounded blocking deque
  with a permanent cancellation flag, and `SynchronizedQueue`, its
  non-blocking sibling.

Blocking is modelled by an explicit outcome: every queue operation is a
pure function on the instance state that either completes (mirroring the
code path taken while the instance lock is held), reports cancellation
(the `if (stop_requested_) return false;` path inside the wait loop), or
is `blocked` (the thread is suspended on a condition with no completed
outcome yet).  Machine integers are modelled as `Int` (C++ `int`, with
the representable range stated explicitly where it matters) and `Nat`
(the unsigned `size_type`, with wrap-around written out as `% 2 ^ 64`).
-/

namespace Thread

/-- Representable range of the C++ `int` used for hierarchy levels. -/
def IntRep (l : Int) : Prop := -2147483648 ≤ l ∧ l < 2147483648

/-- Initial value of `this_thread_hierarchy_value_`:
`std::numeric_limits<int>::max()` (mutex.h line 64). -/
def initHierarchyValue : Int := 2147483647

/-- The hierarchy check of `HierarchicalMutex::CheckHierarchyViolations`
(mutex.h line 69): the assertion passes iff
`current_level_ < this_thread_hierarchy_value_`. -/
def CheckHierarchyViolations (current_level this_thread_hierarchy_value : Int) : Bool :=
  current_level < this_thread_hierarchy_value

/-- Run a sequence of `lock()` calls (levels only) against the calling
thread's watermark: each call first runs the hierarchy check (abort =
`none`), then `UpdateHierarchyValue` sets the watermark to the acquired
level.  Returns the final watermark when every check passes. -/
def runLocks : List Int → Int → Option Int
  | [], w => some w
  | l :: ls, w => if CheckHierarchyViolations l w then runLocks ls l else none

/-- Index of the `lock()` call at which the assertion fires, if any. -/
def abortIdx : List Int → Int → Option Nat
  | [], _ => none
  | l :: ls, w =>
      if CheckHierarchyViolations l w then (abortIdx ls l).map (· + 1) else some 0

/-- Per-thread view of the lock bookkeeping: the thread-local watermark
and, for every mutex instance (identified by an index), its
`previous_level_` field. -/
structure ThreadState where
  this_thread_hierarchy_value : Int
  previous_level : Nat → Int

/-- `HierarchicalMutex::lock()` (mutex.h lines 79-83) for instance `i`
of a family with levels `level`: `CheckHierarchyViolations` (abort =
`none`), then `UpdateHierarchyValue` records the old watermark in
`previous_level_` and lowers the watermark to `current_level_`. -/
def lock (level : Nat → Int) (i : Nat) (s : ThreadState) : Option ThreadState :=
  if CheckHierarchyViolations (level i) s.this_thread_hierarchy_value then
    some { this_thread_hierarchy_value := level i,
           previous_level := fun j =>
             if j = i then s.this_thread_hierarchy_value else s.previous_level j }
  else
    none

/-- `HierarchicalMutex::unlock()` (mutex.h lines 86-89) for instance
`i`: restores the watermark from the instance's `previous_level_`. -/
def unlock (i : Nat) (s : ThreadState) : ThreadState :=
  { this_thread_hierarchy_value := s.previous_level i,
    previous_level := s.previous_level }

/-- One `lock()` or `unlock()` call on instance `i`. -/
inductive Event where
  | lock (i : Nat)
  | unlock (i : Nat)

/-- Run a sequence of lock/unlock events on one thread; `none` as soon
as a hierarchy check fails. -/
def run (level : Nat → Int) : List Event → ThreadState → Option ThreadState
  | [], s => some s
  | Event.lock i :: es, s => (lock level i s).bind (run level es)
  | Event.unlock i :: es, s => run level es (unlock i s)

/-- Properly nested (LIFO) event sequences: every `unlock` closes the
most recent still-open `lock` of the same instance. -/
inductive Nested : List Event → Prop where
  | nil : Nested []
  | wrap (i : Nat) {es : List Event} :
      Nested es → Nested (Event.lock i :: es ++ [Event.unlock i])
  | append {es₁ es₂ : List Event} :
      Nested es₁ → Nested es₂ → Nested (es₁ ++ es₂)

/-- Outcome of a blocking queue operation: the call completed
(`success`), it observed `stop_requested_` after a wait and returned
`false` (`stopped`), or the thread is suspended on a condition variable
with no completed outcome (`blocked`). -/
inductive WaitResult where
  | success
  | stopped
  | blocked
deriving DecidableEq

/-- Bit width of `WaitSyncQueue::SizeType`
(`std::deque<T>::size_type`, a 64-bit unsigned type). -/
def sizeTypeWidth : Nat := 64

/-- Default of the field `max_queue_size_ = -1`
(threadsafequeue.h line 150): the negative value reduced modulo
`2 ^ 64`, the wrap-around of the unsigned `SizeType`. -/
def defaultMaxQueueSize : Nat := ((-1 : Int) % (2 ^ sizeTypeWidth : Int)).toNat

/-- State of a `WaitSyncQueue<T>` instance: the deque `elements_`
(head = front, last = back), `max_queue_size_` and `stop_requested_`. -/
structure WaitSyncQueue (α : Type) where
  elements : List α
  max_queue_size : Nat
  stop_requested : Bool
deriving DecidableEq

namespace WaitSyncQueue

/-- Freshly constructed `WaitSyncQueue()`: empty, not stopped, default
capacity. -/
def init {α : Type} : WaitSyncQueue α := ⟨[], defaultMaxQueueSize, false⟩

/-- `WaitSyncQueue::Empty`. -/
def Empty {α : Type} (q : WaitSyncQueue α) : Bool := q.elements.isEmpty

/-- `WaitSyncQueue::Size`. -/
def Size {α : Type} (q : WaitSyncQueue α) : Nat := q.elements.length

/-- `WaitSyncQueue::SetMaxQueueSize` (threadsafequeue.h lines 80-83). -/
def SetMaxQueueSize {α : Type} (q : WaitSyncQueue α) (new_max_queue_size : Nat) :
    WaitSyncQueue α :=
  { q with max_queue_size := new_max_queue_size }

/-- `WaitSyncQueue::MaxQueueSize` (threadsafequeue.h lines 85-88). -/
def MaxQueueSize {α : Type} (q : WaitSyncQueue α) : Nat := q.max_queue_size

/-- `WaitSyncQueue::StopAllWaiters` (threadsafequeue.h lines 154-159):
sets `stop_requested_` and notifies both conditions (the notifications
have no effect on the instance state). -/
def StopAllWaiters {α : Type} (q : WaitSyncQueue α) : WaitSyncQueue α :=
  { q with stop_requested := true }

/-- `WaitSyncQueue::PushUnsafe` (threadsafequeue.h lines 121-127). -/
def PushUnsafe {α : Type} (q : WaitSyncQueue α) (value : α) (push_to_back : Bool) :
    WaitSyncQueue α :=
  if push_to_back then { q with elements := q.elements ++ [value] }
  else { q with elements := value :: q.elements }

/-- `WaitSyncQueue::PopInternal` (threadsafequeue.h lines 171-183).
`result` is the content of the caller's output location on entry; the
returned `α` is its content when the call returns (`PopUnsafe`, inlined
here, writes it only on the success path).  An empty queue sends the
caller into the wait loop, whose only exit with a return value is the
cancellation check after a wake; the notify of `queue_not_full_` on
success does not change the instance state. -/
def PopInternal {α : Type} (q : WaitSyncQueue α) (result : α) (pop_from_back : Bool) :
    WaitResult × α × WaitSyncQueue α :=
  match q.elements with
  | [] => if q.stop_requested then (.stopped, result, q) else (.blocked, result, q)
  | x :: xs =>
      if pop_from_back then
        (.success, (x :: xs).getLast (List.cons_ne_nil x xs),
         { q with elements := (x :: xs).dropLast })
      else
        (.success, x, { q with elements := xs })

/-- `WaitSyncQueue::PushInternal` (threadsafequeue.h lines 196-206).
A full queue sends the caller into the wait loop, whose only exit with
a return value is the cancellation check after a wake; the notify of
`queue_not_empty_` on success does not change the instance state. -/
def PushInternal {α : Type} (q : WaitSyncQueue α) (value : α) (push_to_back : Bool) :
    WaitResult × WaitSyncQueue α :=
  if q.elements.length ≥ q.max_queue_size then
    if q.stop_requested then (.stopped, q) else (.blocked, q)
  else
    (.success, PushUnsafe q value push_to_back)

/-- `WaitSyncQueue::PopBack`. -/
def PopBack {α : Type} (q : WaitSyncQueue α) (result : α) :
    WaitResult × α × WaitSyncQueue α :=
  PopInternal q result true

/-- `WaitSyncQueue::PopFront`. -/
def PopFront {α : Type} (q : WaitSyncQueue α) (result : α) :
    WaitResult × α × WaitSyncQueue α :=
  PopInternal q result false

/-- `WaitSyncQueue::PushBack`. -/
def PushBack {α : Type} (q : WaitSyncQueue α) (value : α) :
    WaitResult × WaitSyncQueue α :=
  PushInternal q value true

/-- `WaitSyncQueue::PushFront`. -/
def PushFront {α : Type} (q : WaitSyncQueue α) (value : α) :
    WaitResult × WaitSyncQueue α :=
  PushInternal q value false

/-- `WaitSyncQueue::SwapWithEmpty` (threadsafequeue.h lines 162-168):
`elements_.swap(*other)`; returns the new instance state and the new
content of `*other`. -/
def SwapWithEmpty {α : Type} (q : WaitSyncQueue α) (other : List α) :
    WaitSyncQueue α × List α :=
  ({ q with elements := other }, q.elements)

/-- One public operation on a `WaitSyncQueue` (pops feed a dummy output
location `d`; `SwapWithEmpty` is called with an empty destination, as
its contract requires). -/
inductive Op (α : Type) where
  | pushBack (v : α)
  | pushFront (v : α)
  | popBack
  | popFront
  | swapWithEmpty
  | setMaxQueueSize (n : Nat)
  | stopAllWaiters

/-- State reached after one public operation. -/
def applyOp {α : Type} (q : WaitSyncQueue α) (d : α) : Op α → WaitSyncQueue α
  | Op.pushBack v => (PushBack q v).2
  | Op.pushFront v => (PushFront q v).2
  | Op.popBack => (PopBack q d).2.2
  | Op.popFront => (PopFront q d).2.2
  | Op.swapWithEmpty => (SwapWithEmpty q []).1
  | Op.setMaxQueueSize n => SetMaxQueueSize q n
  | Op.stopAllWaiters => StopAllWaiters q

/-- Fold `PushBack` over a list of values, keeping the instance state. -/
def pushBackAll {α : Type} (q : WaitSyncQueue α) : List α → WaitSyncQueue α
  | [] => q
  | v :: vs => pushBackAll (PushBack q v).2 vs

/-- Call `PopFront` `n` times (dummy output location `d`), collecting
the values of the successful calls in call order; stops at the first
call that does not succeed. -/
def popFrontN {α : Type} (q : WaitSyncQueue α) (d : α) : Nat → List α × WaitSyncQueue α
  | 0 => ([], q)
  | n + 1 =>
      match PopFront q d with
      | (WaitResult.success, v, q₂) =>
          let rest := popFrontN q₂ d n
          (v :: rest.1, rest.2)
      | (_, _, q₂) => ([], q₂)

/-- Call `PopBack` `n` times, collecting the values of the successful
calls in call order; stops at the first call that does not succeed. -/
def popBackN {α : Type} (q : WaitSyncQueue α) (d : α) : Nat → List α × WaitSyncQueue α
  | 0 => ([], q)
  | n + 1 =>
      match PopBack q d with
      | (WaitResult.success, v, q₂) =>
          let rest := popBackN q₂ d n
          (v :: rest.1, rest.2)
      | (_, _, q₂) => ([], q₂)

end WaitSyncQueue

/-- State of a `SynchronizedQueue<T>` instance: the deque `elements_`. -/
structure SynchronizedQueue (α : Type) where
  elements : List α
deriving DecidableEq

namespace SynchronizedQueue

/-- `SynchronizedQueue::SwapWithEmpty` (threadsafequeue.h lines
237-241): `elements_.swap(*other)`. -/
def SwapWithEmpty {α : Type} (q : SynchronizedQueue α) (other : List α) :
    SynchronizedQueue α × List α :=
  (⟨other⟩, q.elements)

end SynchronizedQueue

/-! Helper lemmas about the hierarchical mutex. -/

theorem runLocks_isSome_of_pairwise {ls : List Int} :
    ∀ w : Int, List.Pairwise (fun a b => a > b) ls → (∀ l ∈ ls, l < w) →
      (runLocks ls w).isSome = true := by
  induction ls with
  | nil => intro w _ _; rfl
  | cons l ls ih =>
      intro w hp hall
      obtain ⟨hrel, hp'⟩ := List.pairwise_cons.1 hp
      have hl : l < w := hall l (List.mem_cons_self l ls)
      simp [runLocks, CheckHierarchyViolations, hl]
      exact ih l hp' hrel

theorem abortIdx_first_violation :
    ∀ (pre : List Int) (w0 w l : Int) (post : List Int),
      runLocks pre w0 = some w → w ≤ l →
      abortIdx (pre ++ l :: post) w0 = some pre.length := by
  intro pre
  induction pre with
  | nil =>
      intro w0 w l post hrun hle
      have hw : w0 = w := by simpa [runLocks] using hrun
      subst hw
      have hnot : ¬ (l < w0) := not_lt.2 hle
      simp [abortIdx, CheckHierarchyViolations, hnot]
  | cons p pre ih =>
      intro w0 w l post hrun hle
      cases hc : CheckHierarchyViolations p w0 with
      | false => simp [runLocks, hc] at hrun
      | true =>
          rw [runLocks, if_pos hc] at hrun
          simp [abortIdx, hc, ih p w l post hrun hle]

/-! Claim theorems for the hierarchical mutex. -/

/-- C1 counterexample: the singleton sequence consisting of one lock at
the representable level `2147483647` is strictly decreasing, yet the
hierarchy assertion fires at its first (and only) step, because the
initial watermark is `2147483647` itself, not a value above every
representable level. -/
theorem hierarchy_int_max_singleton_aborts :
    IntRep 2147483647 ∧
    List.Chain' (fun a b => a > b) [(2147483647 : Int)] ∧
    runLocks [(2147483647 : Int)] initHierarchyValue = none :=
  ⟨⟨by decide, by decide⟩, List.chain'_singleton _, by decide⟩

/-- C1 (amended): for every sequence of lock() calls by a single thread
whose hierarchy levels are strictly decreasing and below `2147483647`
(the initial watermark), every lock() passes the hierarchy check; and
for every sequence whose calls pass the check up to some step at which
the level is greater than or equal to the thread's current watermark,
the assertion fires at exactly that step. -/
theorem hierarchy_strictly_decreasing_locks :
    (∀ ls : List Int, List.Chain' (fun a b => a > b) ls →
        (∀ l ∈ ls, l < initHierarchyValue) →
        (runLocks ls initHierarchyValue).isSome = true) ∧
    (∀ (pre : List Int) (l : Int) (post : List Int) (w : Int),
        runLocks pre initHierarchyValue = some w → w ≤ l →
        abortIdx (pre ++ l :: post) initHierarchyValue = some pre.length) := by
  constructor
  · intro ls hc hall
    have ht : IsTrans Int (fun a b => a > b) := ⟨fun _ _ _ h₁ h₂ => lt_trans h₂ h₁⟩
    exact runLocks_isSome_of_pairwise initHierarchyValue
      ((@List.chain'_iff_pairwise Int _ ht ls).1 hc) hall
  · intro pre l post w hrun hle
    exact abortIdx_first_violation pre initHierarchyValue w l post hrun hle

/-- C1 witness: locking levels 100 then 50 from a fresh thread
succeeds, and after the passing step at level 100 a lock at level 100
again aborts at index 1. -/
theorem hierarchy_strictly_decreasing_locks_witness :
    (runLocks [100, 50] initHierarchyValue).isSome = true ∧
    abortIdx ([100] ++ 100 :: []) initHierarchyValue = some [100].length :=
  ⟨hierarchy_strictly_decreasing_locks.1 [100, 50]
      (List.chain'_cons.2 ⟨by norm_num, List.chain'_singleton _⟩) (by decide),
   hierarchy_strictly_decreasing_locks.2 [100] 100 [] 100 (by decide) (by decide)⟩

/-- C3 counterexample: `2147483647` is a representable `int` hierarchy
level, yet a thread's first-ever lock() at that level fails the
hierarchy check, because the watermark starts at `2147483647`, the
largest representable value, not at a value above every representable
level. -/
theorem first_lock_int_max_fails :
    IntRep 2147483647 ∧
    CheckHierarchyViolations 2147483647 initHierarchyValue = false :=
  ⟨⟨by decide, by decide⟩, by decide⟩

/-- C3 (amended): a thread's first-ever lock() passes the hierarchy
check for every representable level except `2147483647`, the initial
watermark value, at which the assertion fires. -/
theorem first_lock_check_iff_not_int_max (l : Int) (h : IntRep l) :
    CheckHierarchyViolations l initHierarchyValue = true ↔ l ≠ initHierarchyValue := by
  obtain ⟨h₁, h₂⟩ := h
  simp only [CheckHierarchyViolations, initHierarchyValue, decide_eq_true_eq, ne_eq]
  omega

/-- C3 witness: at level 5 the first lock passes. -/
theorem first_lock_check_iff_not_int_max_witness :
    CheckHierarchyViolations 5 initHierarchyValue = true ↔ (5 : Int) ≠ initHierarchyValue :=
  first_lock_check_iff_not_int_max 5 ⟨by decide, by decide⟩

theorem run_append (level : Nat → Int) (es₁ es₂ : List Event) (s : ThreadState) :
    run level (es₁ ++ es₂) s = (run level es₁ s).bind (run level es₂) := by
  induction es₁ generalizing s with
  | nil => rfl
  | cons e es ih =>
      cases e with
      | lock i =>
          simp only [List.cons_append, run]
          cases lock level i s with
          | none => rfl
          | some s₁ => exact ih s₁
      | unlock i =>
          simp only [List.cons_append, run]
          exact ih (unlock i s)

theorem lock_eq_some {level : Nat → Int} {i : Nat} {s s₁ : ThreadState}
    (h : lock level i s = some s₁) :
    level i < s.this_thread_hierarchy_value ∧
    s₁ = { this_thread_hierarchy_value := level i,
           previous_level := fun j =>
             if j = i then s.this_thread_hierarchy_value else s.previous_level j } := by
  by_cases hc : level i < s.this_thread_hierarchy_value
  · refine ⟨hc, ?_⟩
    rw [lock] at h
    have hb : CheckHierarchyViolations (level i) s.this_thread_hierarchy_value = true :=
      decide_eq_true hc
    rw [hb] at h
    simpa using h.symm
  · exfalso
    rw [lock] at h
    have hb : CheckHierarchyViolations (level i) s.this_thread_hierarchy_value = false :=
      decide_eq_false hc
    rw [hb] at h
    simp at h

/-- Running any properly nested event sequence restores the watermark
and leaves untouched the `previous_level_` slot of every mutex whose
level is at or above the starting watermark (in particular of every
mutex held when the sequence starts). -/
theorem nested_run_restores {level : Nat → Int} {es : List Event} (hn : Nested es) :
    ∀ s s' : ThreadState, run level es s = some s' →
      s'.this_thread_hierarchy_value = s.this_thread_hierarchy_value ∧
      ∀ j, s.this_thread_hierarchy_value ≤ level j →
        s'.previous_level j = s.previous_level j := by
  induction hn with
  | nil =>
      intro s s' h
      cases h
      exact ⟨rfl, fun _ _ => rfl⟩
  | wrap i hes ih =>
      rename_i es'
      intro s s' h
      simp only [run] at h
      obtain ⟨s₁, hlock, hrest⟩ := Option.bind_eq_some.1 h
      obtain ⟨hlt, hs₁⟩ := lock_eq_some hlock
      replace hrest : run level (es' ++ [Event.unlock i]) s₁ = some s' := hrest
      rw [run_append] at hrest
      obtain ⟨s₂, hes', hunl⟩ := Option.bind_eq_some.1 hrest
      have hs' : s' = unlock i s₂ := by
        simpa [run] using hunl.symm
      obtain ⟨hw₂, hframe₂⟩ := ih s₁ s₂ hes'
      have hprevi : s₂.previous_level i = s.this_thread_hierarchy_value := by
        rw [hframe₂ i (by rw [hs₁]), hs₁]
        simp
      constructor
      · rw [hs', unlock, hprevi]
      · intro j hj
        have hji : j ≠ i := by
          intro hji
          subst hji
          exact absurd hlt (not_lt.2 hj)
        have h₂ : s₂.previous_level j = s₁.previous_level j := by
          apply hframe₂ j
          rw [hs₁]
          exact le_of_lt (lt_of_lt_of_le hlt hj)
        rw [hs', unlock]
        simp only [h₂, hs₁, if_neg hji]
  | append hes₁ hes₂ ih₁ ih₂ =>
      intro s s' h
      rw [run_append] at h
      obtain ⟨s₁, h₁, h₂⟩ := Option.bind_eq_some.1 h
      obtain ⟨hw₁, hf₁⟩ := ih₁ s s₁ h₁
      obtain ⟨hw₂, hf₂⟩ := ih₂ s₁ s' h₂
      refine ⟨hw₂.trans hw₁, fun j hj => ?_⟩
      rw [hf₂ j (by rw [hw₁]; exact hj), hf₁ j hj]

/-! Helper lemmas about the wait-sync queue. -/

theorem PopInternal_nil {α : Type} {q : WaitSyncQueue α} (d : α) (b : Bool)
    (h : q.elements = []) :
    q.PopInternal d b =
      (if q.stop_requested then WaitResult.stopped else WaitResult.blocked, d, q) := by
  obtain ⟨e, m, s⟩ := q
  simp only at h
  subst h
  cases s <;> rfl

theorem PopInternal_front_cons {α : Type} {q : WaitSyncQueue α} (d : α) {x : α}
    {xs : List α} (h : q.elements = x :: xs) :
    q.PopInternal d false = (WaitResult.success, x, { q with elements := xs }) := by
  obtain ⟨e, m, s⟩ := q
  simp only at h
  subst h
  rfl

theorem PopInternal_back_ne {α : Type} {q : WaitSyncQueue α} (d : α)
    (h : q.elements ≠ []) :
    q.PopInternal d true =
      (WaitResult.success, q.elements.getLast h,
       { q with elements := q.elements.dropLast }) := by
  obtain ⟨e, m, s⟩ := q
  cases e with
  | nil => exact absurd rfl h
  | cons x xs => rfl

theorem PushInternal_of_lt {α : Type} {q : WaitSyncQueue α} (v : α) (b : Bool)
    (h : q.elements.length < q.max_queue_size) :
    q.PushInternal v b = (WaitResult.success, q.PushUnsafe v b) := by
  rw [WaitSyncQueue.PushInternal, if_neg (not_le.2 h)]

theorem PushInternal_of_ge {α : Type} {q : WaitSyncQueue α} (v : α) (b : Bool)
    (h : q.max_queue_size ≤ q.elements.length) :
    q.PushInternal v b =
      (if q.stop_requested then WaitResult.stopped else WaitResult.blocked, q) := by
  rw [WaitSyncQueue.PushInternal, if_pos h]
  cases q.stop_requested <;> rfl

theorem PushUnsafe_elements {α : Type} (q : WaitSyncQueue α) (v : α) (b : Bool) :
    (q.PushUnsafe v b).elements.length = q.elements.length + 1 ∧
    (q.PushUnsafe v b).max_queue_size = q.max_queue_size ∧
    (q.PushUnsafe v b).stop_requested = q.stop_requested := by
  cases b <;> simp [WaitSyncQueue.PushUnsafe]

/-! Claim theorems for the wait-sync queue. -/

/-- C2 counterexample: on an instance that already received
`StopAllWaiters()` but still holds one element, `PopFront` returns
`true` and removes the element, instead of returning `false` without
removing anything. -/
theorem stopped_nonempty_pop_succeeds :
    (WaitSyncQueue.PopFront (⟨[5], defaultMaxQueueSize, true⟩ : WaitSyncQueue Nat) 0).1 =
      WaitResult.success ∧
    (WaitSyncQueue.PopFront
        (⟨[5], defaultMaxQueueSize, true⟩ : WaitSyncQueue Nat) 0).2.2.elements = [] :=
  ⟨rfl, rfl⟩

/-- C2 (amended): once `StopAllWaiters()` has been called, every
subsequent `Pop*` call that finds the queue empty returns `false`
immediately without writing its output or changing the queue, and every
subsequent `Push*` call that finds the length at or above capacity
returns `false` immediately without changing the queue; calls whose
fast-path predicate holds at entry still complete (see the
counterexample). -/
theorem stop_rejects_empty_pop_and_full_push (α : Type) (q₁ q₂ : WaitSyncQueue α)
    (d v : α) (b₁ b₂ : Bool)
    (h₁ : q₁.stop_requested = true) (he : q₁.elements = [])
    (h₂ : q₂.stop_requested = true) (hf : q₂.max_queue_size ≤ q₂.elements.length) :
    (q₁.PopInternal d b₁).1 = WaitResult.stopped ∧
    (q₁.PopInternal d b₁).2.1 = d ∧
    (q₁.PopInternal d b₁).2.2 = q₁ ∧
    (q₂.PushInternal v b₂).1 = WaitResult.stopped ∧
    (q₂.PushInternal v b₂).2 = q₂ := by
  rw [PopInternal_nil d b₁ he, PushInternal_of_ge v b₂ hf, h₁, h₂]
  exact ⟨rfl, rfl, rfl, rfl, rfl⟩

/-- C2 witness: a stopped empty queue rejects `PopBack`, and a stopped
full queue (capacity 1 holding one element) rejects `PushBack`. -/
theorem stop_rejects_empty_pop_and_full_push_witness :
    ((⟨[], defaultMaxQueueSize, true⟩ : WaitSyncQueue Nat).PopInternal 7 true).1 =
      WaitResult.stopped ∧
    ((⟨[], defaultMaxQueueSize, true⟩ : WaitSyncQueue Nat).PopInternal 7 true).2.1 = 7 ∧
    ((⟨[], defaultMaxQueueSize, true⟩ : WaitSyncQueue Nat).PopInternal 7 true).2.2 =
      (⟨[], defaultMaxQueueSize, true⟩ : WaitSyncQueue Nat) ∧
    ((⟨[9], 1, true⟩ : WaitSyncQueue Nat).PushInternal 8 true).1 = WaitResult.stopped ∧
    ((⟨[9], 1, true⟩ : WaitSyncQueue Nat).PushInternal 8 true).2 =
      (⟨[9], 1, true⟩ : WaitSyncQueue Nat) :=
  stop_rejects_empty_pop_and_full_push Nat ⟨[], defaultMaxQueueSize, true⟩ ⟨[9], 1, true⟩
    7 8 true true rfl rfl rfl (by decide)

/-- C7: whenever a `Pop*` call returns `false` because it observed
cancellation, the caller's output location still holds its original
content and the queue state is unchanged. -/
theorem cancelled_pop_leaves_state (α : Type) (q : WaitSyncQueue α) (result : α)
    (b : Bool) (h : (q.PopInternal result b).1 = WaitResult.stopped) :
    (q.PopInternal result b).2.1 = result ∧ (q.PopInternal result b).2.2 = q := by
  cases he : q.elements with
  | nil => rw [PopInternal_nil result b he]; exact ⟨rfl, rfl⟩
  | cons x xs =>
      exfalso
      cases b with
      | false =>
          rw [PopInternal_front_cons result he] at h
          simp at h
      | true =>
          rw [PopInternal_back_ne result (by rw [he]; exact List.cons_ne_nil x xs)] at h
          simp at h

/-- C7 witness: a cancelled `PopFront` on a stopped empty queue leaves
the output location and the queue untouched. -/
theorem cancelled_pop_leaves_state_witness :
    ((⟨[], defaultMaxQueueSize, true⟩ : WaitSyncQueue Nat).PopInternal 3 false).2.1 = 3 ∧
    ((⟨[], defaultMaxQueueSize, true⟩ : WaitSyncQueue Nat).PopInternal 3 false).2.2 =
      (⟨[], defaultMaxQueueSize, true⟩ : WaitSyncQueue Nat) :=
  cancelled_pop_leaves_state Nat ⟨[], defaultMaxQueueSize, true⟩ 3 false rfl

/-- C8: for both queue classes, `SwapWithEmpty` with an empty
destination hands the destination exactly the element sequence the
queue held, in order, and leaves the queue empty. -/
theorem swap_with_empty_moves (α : Type) (q : WaitSyncQueue α)
    (sq : SynchronizedQueue α) (other₁ other₂ : List α)
    (h₁ : other₁ = []) (h₂ : other₂ = []) :
    (q.SwapWithEmpty other₁).2 = q.elements ∧
    (q.SwapWithEmpty other₁).1.elements = [] ∧
    (sq.SwapWithEmpty other₂).2 = sq.elements ∧
    (sq.SwapWithEmpty other₂).1.elements = [] := by
  subst h₁
  subst h₂
  exact ⟨rfl, rfl, rfl, rfl⟩

/-- C8 witness: swapping a three-element wait-sync queue and a
two-element synchronized queue with empty destinations. -/
theorem swap_with_empty_moves_witness :
    ((⟨[1, 2, 3], defaultMaxQueueSize, false⟩ : WaitSyncQueue Nat).SwapWithEmpty []).2 =
      (⟨[1, 2, 3], defaultMaxQueueSize, false⟩ : WaitSyncQueue Nat).elements ∧
    ((⟨[1, 2, 3], defaultMaxQueueSize, false⟩ :
        WaitSyncQueue Nat).SwapWithEmpty []).1.elements = [] ∧
    ((⟨[4, 5]⟩ : SynchronizedQueue Nat).SwapWithEmpty []).2 =
      (⟨[4, 5]⟩ : SynchronizedQueue Nat).elements ∧
    ((⟨[4, 5]⟩ : SynchronizedQueue Nat).SwapWithEmpty []).1.elements = [] :=
  swap_with_empty_moves Nat ⟨[1, 2, 3], defaultMaxQueueSize, false⟩ ⟨[4, 5]⟩ [] [] rfl rfl

/-- C9: the default `max_queue_size_ = -1` wraps around to
`2 ^ 64 - 1`, the largest value of the unsigned size type, so a fresh
queue reports that as `MaxQueueSize()` and a push finding fewer than
`2 ^ 64 - 1` stored elements never sees the queue as full. -/
theorem default_capacity_unbounded :
    defaultMaxQueueSize = 2 ^ 64 - 1 ∧
    (∀ α : Type, WaitSyncQueue.MaxQueueSize (WaitSyncQueue.init : WaitSyncQueue α) =
      2 ^ 64 - 1) ∧
    (∀ (α : Type) (q : WaitSyncQueue α) (v : α) (b : Bool),
        q.max_queue_size = defaultMaxQueueSize →
        q.elements.length < 2 ^ 64 - 1 →
        (q.PushInternal v b).1 = WaitResult.success) := by
  have hdef : defaultMaxQueueSize = 2 ^ 64 - 1 := by decide
  refine ⟨hdef, fun α => hdef, fun α q v b h1 h2 => ?_⟩
  have hlt : q.elements.length < q.max_queue_size := by rw [h1, hdef]; exact h2
  rw [PushInternal_of_lt v b hlt]

/-- C9 witness: a fresh queue holding three elements still accepts a
push. -/
theorem default_capacity_unbounded_witness :
    ((⟨[1, 2, 3], defaultMaxQueueSize, false⟩ : WaitSyncQueue Nat).PushInternal 4 true).1 =
      WaitResult.success :=
  default_capacity_unbounded.2.2 Nat ⟨[1, 2, 3], defaultMaxQueueSize, false⟩ 4 true rfl
    (by decide)

/-- C10: after `StopAllWaiters()`, a `Pop*` call that finds the queue
non-empty at entry still removes an element and returns `true`, and a
`Push*` call that finds the length below capacity at entry still
inserts and returns `true`: the cancellation flag is examined only
after a wait, never on the fast path. -/
theorem stopped_fast_paths_still_complete :
    (∀ (α : Type) (q : WaitSyncQueue α) (d : α) (b : Bool),
        q.stop_requested = true → q.elements ≠ [] →
        (q.PopInternal d b).1 = WaitResult.success ∧
        (q.PopInternal d b).2.2.elements.length + 1 = q.elements.length) ∧
    (∀ (α : Type) (q : WaitSyncQueue α) (v : α) (b : Bool),
        q.stop_requested = true → q.elements.length < q.max_queue_size →
        (q.PushInternal v b).1 = WaitResult.success ∧
        (q.PushInternal v b).2.elements.length = q.elements.length + 1) := by
  constructor
  · intro α q d b _ hne
    cases b with
    | true =>
        rw [PopInternal_back_ne d hne]
        refine ⟨rfl, ?_⟩
        have hpos : 0 < q.elements.length := List.length_pos.2 hne
        simp only [List.length_dropLast]
        omega
    | false =>
        cases he : q.elements with
        | nil => exact absurd he hne
        | cons x xs =>
            rw [PopInternal_front_cons d he]
            exact ⟨rfl, by simp [he]⟩
  · intro α q v b _ hroom
    rw [PushInternal_of_lt v b hroom]
    exact ⟨rfl, (PushUnsafe_elements q v b).1⟩

/-- C10 witness: a stopped queue holding one element completes a
`PopBack`, and a stopped queue with room completes a `PushFront`. -/
theorem stopped_fast_paths_still_complete_witness :
    ((⟨[5], defaultMaxQueueSize, true⟩ : WaitSyncQueue Nat).PopInternal 0 true).1 =
      WaitResult.success ∧
    ((⟨[5], defaultMaxQueueSize, true⟩ :
        WaitSyncQueue Nat).PopInternal 0 true).2.2.elements.length + 1 =
      (⟨[5], defaultMaxQueueSize, true⟩ : WaitSyncQueue Nat).elements.length ∧
    ((⟨[], 4, true⟩ : WaitSyncQueue Nat).PushInternal 9 false).1 = WaitResult.success ∧
    ((⟨[], 4, true⟩ : WaitSyncQueue Nat).PushInternal 9 false).2.elements.length =
      (⟨[], 4, true⟩ : WaitSyncQueue Nat).elements.length + 1 := by
  obtain ⟨hp, _⟩ := stopped_fast_paths_still_complete.1 Nat
    ⟨[5], defaultMaxQueueSize, true⟩ 0 true rfl (by decide)
  exact ⟨hp, (stopped_fast_paths_still_complete.1 Nat
      ⟨[5], defaultMaxQueueSize, true⟩ 0 true rfl (by decide)).2,
    (stopped_fast_paths_still_complete.2 Nat ⟨[], 4, true⟩ 9 false rfl (by decide)).1,
    (stopped_fast_paths_still_complete.2 Nat ⟨[], 4, true⟩ 9 false rfl (by decide)).2⟩

theorem PushInternal_length_le {α : Type} (q : WaitSyncQueue α) (v : α) (b : Bool)
    (hle : q.elements.length ≤ q.max_queue_size) :
    (q.PushInternal v b).2.elements.length ≤ (q.PushInternal v b).2.max_queue_size := by
  by_cases hlt : q.elements.length < q.max_queue_size
  · rw [PushInternal_of_lt v b hlt]
    show (q.PushUnsafe v b).elements.length ≤ (q.PushUnsafe v b).max_queue_size
    obtain ⟨hl, hm, _⟩ := PushUnsafe_elements q v b
    rw [hl, hm]
    omega
  · rw [PushInternal_of_ge v b (le_of_not_lt hlt)]
    exact hle

/-- C5: a completed `Push*` never takes the length above capacity,
`SetMaxQueueSize` removes no elements, and every public operation other
than a `SetMaxQueueSize` that lowers capacity below the current length
preserves the invariant `length ≤ capacity`. -/
theorem length_never_exceeds_capacity :
    (∀ (α : Type) (q : WaitSyncQueue α) (v : α) (b : Bool),
        (q.PushInternal v b).1 = WaitResult.success →
        (q.PushInternal v b).2.elements.length ≤ (q.PushInternal v b).2.max_queue_size) ∧
    (∀ (α : Type) (q : WaitSyncQueue α) (n : Nat),
        (q.SetMaxQueueSize n).elements = q.elements) ∧
    (∀ (α : Type) (q : WaitSyncQueue α) (d : α) (op : WaitSyncQueue.Op α),
        q.elements.length ≤ q.max_queue_size →
        (∀ n, op = WaitSyncQueue.Op.setMaxQueueSize n → q.elements.length ≤ n) →
        (q.applyOp d op).elements.length ≤ (q.applyOp d op).max_queue_size) := by
  refine ⟨fun α q v b h => ?_, fun α q n => rfl, fun α q d op hle hcap => ?_⟩
  · by_cases hlt : q.elements.length < q.max_queue_size
    · rw [PushInternal_of_lt v b hlt]
      show (q.PushUnsafe v b).elements.length ≤ (q.PushUnsafe v b).max_queue_size
      obtain ⟨hl, hm, _⟩ := PushUnsafe_elements q v b
      rw [hl, hm]
      omega
    · exfalso
      rw [PushInternal_of_ge v b (le_of_not_lt hlt)] at h
      cases hs : q.stop_requested <;> rw [hs] at h <;> simp at h
  · cases op with
    | pushBack v =>
        exact PushInternal_length_le q v true hle
    | pushFront v =>
        exact PushInternal_length_le q v false hle
    | popBack =>
        show ((q.PopInternal d true).2.2).elements.length ≤
          ((q.PopInternal d true).2.2).max_queue_size
        cases he : q.elements with
        | nil => rw [PopInternal_nil d true he]; exact hle
        | cons x xs =>
            rw [PopInternal_back_ne d (by rw [he]; exact List.cons_ne_nil x xs)]
            show q.elements.dropLast.length ≤ q.max_queue_size
            rw [List.length_dropLast]
            omega
    | popFront =>
        show ((q.PopInternal d false).2.2).elements.length ≤
          ((q.PopInternal d false).2.2).max_queue_size
        cases he : q.elements with
        | nil => rw [PopInternal_nil d false he]; exact hle
        | cons x xs =>
            rw [PopInternal_front_cons d he]
            show xs.length ≤ q.max_queue_size
            rw [he] at hle
            simp only [List.length_cons] at hle
            omega
    | swapWithEmpty =>
        exact Nat.zero_le _
    | setMaxQueueSize n =>
        exact hcap n rfl
    | stopAllWaiters =>
        exact hle

/-- C5 witness: a successful push onto a queue with room keeps the
length within capacity; shrinking capacity keeps the elements; a
`SetMaxQueueSize` not dropping below the length preserves the
invariant. -/
theorem length_never_exceeds_capacity_witness :
    ((⟨[], 2, false⟩ : WaitSyncQueue Nat).PushInternal 1 true).2.elements.length ≤
      ((⟨[], 2, false⟩ : WaitSyncQueue Nat).PushInternal 1 true).2.max_queue_size ∧
    ((⟨[3], 5, false⟩ : WaitSyncQueue Nat).SetMaxQueueSize 0).elements =
      (⟨[3], 5, false⟩ : WaitSyncQueue Nat).elements ∧
    ((⟨[1, 2], 5, false⟩ : WaitSyncQueue Nat).applyOp 0
        (WaitSyncQueue.Op.setMaxQueueSize 3)).elements.length ≤
      ((⟨[1, 2], 5, false⟩ : WaitSyncQueue Nat).applyOp 0
        (WaitSyncQueue.Op.setMaxQueueSize 3)).max_queue_size :=
  ⟨length_never_exceeds_capacity.1 Nat ⟨[], 2, false⟩ 1 true rfl,
   length_never_exceeds_capacity.2.1 Nat ⟨[3], 5, false⟩ 0,
   length_never_exceeds_capacity.2.2 Nat ⟨[1, 2], 5, false⟩ 0
     (WaitSyncQueue.Op.setMaxQueueSize 3) (by decide)
     (fun n h => by injection h with h2; subst h2; decide)⟩

theorem pushBackAll_spec {α : Type} :
    ∀ (l : List α) (q : WaitSyncQueue α),
      q.elements.length + l.length ≤ q.max_queue_size →
      WaitSyncQueue.pushBackAll q l = { q with elements := q.elements ++ l } := by
  intro l
  induction l with
  | nil =>
      intro q _
      obtain ⟨e, m, s⟩ := q
      simp [WaitSyncQueue.pushBackAll]
  | cons v vs ih =>
      intro q h
      simp only [List.length_cons] at h
      have hlt : q.elements.length < q.max_queue_size := by omega
      have hpush : (q.PushBack v).2 = { q with elements := q.elements ++ [v] } := by
        rw [WaitSyncQueue.PushBack, PushInternal_of_lt v true hlt]
        rfl
      have h2 : ({ q with elements := q.elements ++ [v] } :
          WaitSyncQueue α).elements.length + vs.length ≤
          ({ q with elements := q.elements ++ [v] } : WaitSyncQueue α).max_queue_size := by
        simp only [List.length_append, List.length_cons, List.length_nil]
        omega
      rw [WaitSyncQueue.pushBackAll, hpush, ih _ h2]
      simp

theorem popFrontN_spec {α : Type} :
    ∀ (l : List α) (q : WaitSyncQueue α) (d : α), q.elements = l →
      WaitSyncQueue.popFrontN q d l.length = (l, { q with elements := [] }) := by
  intro l
  induction l with
  | nil =>
      intro q d h
      obtain ⟨e, m, s⟩ := q
      simp only at h
      subst h
      rfl
  | cons x xs ih =>
      intro q d h
      simp only [List.length_cons, WaitSyncQueue.popFrontN, WaitSyncQueue.PopFront,
        PopInternal_front_cons d h]
      rw [ih { q with elements := xs } d rfl]

theorem popBackN_spec {α : Type} :
    ∀ (l : List α) (q : WaitSyncQueue α) (d : α), q.elements = l →
      WaitSyncQueue.popBackN q d l.length = (l.reverse, { q with elements := [] }) := by
  intro l
  induction l using List.reverseRecOn with
  | nil =>
      intro q d h
      obtain ⟨e, m, s⟩ := q
      simp only at h
      subst h
      rfl
  | append_singleton ys y ih =>
      intro q d h
      obtain ⟨e, m, s⟩ := q
      simp only at h
      subst h
      have hne : (⟨ys ++ [y], m, s⟩ : WaitSyncQueue α).elements ≠ [] := by simp
      simp only [List.length_append, List.length_cons, List.length_nil,
        WaitSyncQueue.popBackN, WaitSyncQueue.PopBack,
        PopInternal_back_ne d hne]
      simp only [List.getLast_append_singleton, List.dropLast_concat]
      rw [ih ⟨ys, m, s⟩ d rfl]
      simp

/-- C6: pushing the values of `l` with `PushBack` into a fresh
(unbounded) queue stores exactly `l`; popping `l.length` times with
`PopFront` then returns the values in insertion order, and popping
`l.length` times with `PopBack` returns them in reverse insertion
order. -/
theorem fifo_lifo_order (α : Type) (d : α) (l : List α)
    (h : l.length ≤ defaultMaxQueueSize) :
    (WaitSyncQueue.pushBackAll (WaitSyncQueue.init : WaitSyncQueue α) l).elements = l ∧
    (WaitSyncQueue.popFrontN
        (WaitSyncQueue.pushBackAll (WaitSyncQueue.init : WaitSyncQueue α) l) d
        l.length).1 = l ∧
    (WaitSyncQueue.popBackN
        (WaitSyncQueue.pushBackAll (WaitSyncQueue.init : WaitSyncQueue α) l) d
        l.length).1 = l.reverse := by
  have hp := pushBackAll_spec l (WaitSyncQueue.init : WaitSyncQueue α)
      (by simpa [WaitSyncQueue.init] using h)
  have hp2 : WaitSyncQueue.pushBackAll (WaitSyncQueue.init : WaitSyncQueue α) l =
      ⟨l, defaultMaxQueueSize, false⟩ := by
    rw [hp]
    simp [WaitSyncQueue.init]
  rw [hp2]
  exact ⟨rfl,
    by rw [popFrontN_spec l ⟨l, defaultMaxQueueSize, false⟩ d rfl],
    by rw [popBackN_spec l ⟨l, defaultMaxQueueSize, false⟩ d rfl]⟩

/-- C6 witness: pushing 1, 2, 3 then popping three times yields
1, 2, 3 from the front and 3, 2, 1 from the back. -/
theorem fifo_lifo_order_witness :
    (WaitSyncQueue.pushBackAll (WaitSyncQueue.init : WaitSyncQueue Nat)
        [1, 2, 3]).elements = [1, 2, 3] ∧
    (WaitSyncQueue.popFrontN
        (WaitSyncQueue.pushBackAll (WaitSyncQueue.init : WaitSyncQueue Nat) [1, 2, 3]) 0
        [1, 2, 3].length).1 = [1, 2, 3] ∧
    (WaitSyncQueue.popBackN
        (WaitSyncQueue.pushBackAll (WaitSyncQueue.init : WaitSyncQueue Nat) [1, 2, 3]) 0
        [1, 2, 3].length).1 = [3, 2, 1] :=
  fifo_lifo_order Nat 0 [1, 2, 3] (by decide)

/-- C4: for every properly nested (LIFO) sequence of lock()/unlock()
calls by one thread, after the unlock() matching a lock() of mutex `i`
the thread's watermark equals the value it had immediately before that
lock(); in particular a subsequent lock() of any mutex at a level
strictly below the restored watermark passes the hierarchy check. -/
theorem unlock_restores_watermark (level : Nat → Int) (i : Nat) (es : List Event)
    (s s' : ThreadState) (hn : Nested es)
    (h : run level (Event.lock i :: (es ++ [Event.unlock i])) s = some s') :
    s'.this_thread_hierarchy_value = s.this_thread_hierarchy_value ∧
    ∀ j, level j < s'.this_thread_hierarchy_value → (lock level j s').isSome = true := by
  obtain ⟨hw, _⟩ := nested_run_restores (Nested.wrap i hn) s s' h
  refine ⟨hw, fun j hj => ?_⟩
  rw [lock]
  have hb : CheckHierarchyViolations (level j) s'.this_thread_hierarchy_value = true :=
    decide_eq_true hj
  rw [hb]
  rfl

/-- C4 witness: one nested pair at level 5 from a watermark of 100
restores the watermark to 100, after which a lock at level 7 (of a
family where every instance has level 7) passes. -/
theorem unlock_restores_watermark_witness :
    (⟨100, fun j => if j = 0 then (100 : Int) else 0⟩ :
        ThreadState).this_thread_hierarchy_value =
      (⟨100, fun _ => (0 : Int)⟩ : ThreadState).this_thread_hierarchy_value ∧
    (lock (fun n => if n = 0 then (5 : Int) else 7) 1
        ⟨100, fun j => if j = 0 then (100 : Int) else 0⟩).isSome = true :=
  ⟨(unlock_restores_watermark (fun n => if n = 0 then 5 else 7) 0 []
      ⟨100, fun _ => 0⟩ ⟨100, fun j => if j = 0 then 100 else 0⟩ Nested.nil rfl).1,
   (unlock_restores_watermark (fun n => if n = 0 then 5 else 7) 0 []
      ⟨100, fun _ => 0⟩ ⟨100, fun j => if j = 0 then 100 else 0⟩ Nested.nil rfl).2 1
      (by norm_num)⟩

end Thread
